import Mathlib

/-!
Shallow embedding of `logger/analytics/analyticslogger.go` from
caido/dependency-kayvee-go: a batching Firehose logger.  Byte slices are
`List Nat`, Go `time.Time` is a `Nat` (nanoseconds since some epoch), and
the JSON codec (`encoding/json`) is an external collaborator modelled as an
abstract structure of functions, since the spec treats encoding as an
external pure function `encode(entry) -> bytes | error`.
-/

namespace KayveeAnalytics

/-- A byte slice, as in Go `[]byte`. -/
abbrev Bytes := List Nat

/-- `firehose.Record`: one record carrying a `Data` byte payload. -/
structure FirehoseRecord where
  data : Bytes
deriving DecidableEq, Repr

/-- The mutable fields of the Go `Logger` struct that the write path uses
(`batch`, `batchBytes`, `maxBatchRecords`, `maxBatchBytes`).  The mutex,
stream name and Firehose API handle carry no state relevant to the claims. -/
structure Logger where
  batch : List FirehoseRecord
  batchBytes : Nat
  maxBatchRecords : Nat
  maxBatchBytes : Nat
deriving DecidableEq, Repr

/-- `var ignoredFields = []string{"level", "source", "title", "deploy_env", "wf_id"}` -/
def ignoredFields : List String := ["level", "source", "title", "deploy_env", "wf_id"]

/-- `const timeoutForSendingBatches = time.Minute`, in nanoseconds
(Go `time.Duration` counts nanoseconds; one minute is 60e9). -/
def timeoutForSendingBatches : Nat := 60 * 1000000000

/-- `const firehosePutRecordBatchMaxRecords = 500` (AWS limit). -/
def firehosePutRecordBatchMaxRecords : Nat := 500

/-- `const firehosePutRecordBatchMaxBytes = 4000000` (AWS limit). -/
def firehosePutRecordBatchMaxBytes : Nat := 4000000

/-- The byte-threshold cutoff `int(0.9 * float64(maxBatchBytes))` from the
`shouldSendBatch` condition.  For every `m` in the reachable range
(`New` clamps `maxBatchBytes` to at most 4,000,000) the float64 product
`0.9 * float64(m)` truncated to int equals `9 * m / 10` in exact integer
arithmetic: `float64(m)` is exact for `m ≤ 2^53`, the rounded product
differs from the rational `9m/10` by less than `10^-3` for `m ≤ 4*10^6`,
and `9m/10` is either an integer (distance 0, and the rounded double of a
product strictly above it stays at or above it since `0.9` rounds up in
binary64) or at distance at least `1/10` from every integer. -/
def cutoff (maxBatchBytes : Nat) : Nat := 9 * maxBatchBytes / 10

/-- A Go `error` value as the write/send paths can observe it: either an
`awserr.Error` (carrying a `Code()` string) or any other non-nil error. -/
inductive GoError where
  | awsError (code : String) (message : String)
  | plainError (message : String)
deriving DecidableEq, Repr

/-- `retrier.Action` from eapache/go-resiliency: `Succeed`, `Fail`, `Retry`. -/
inductive Action where
  | succeed
  | fail
  | retry
deriving DecidableEq, Repr

/-- `RequestErrorClassifier.Classify`: `nil` is `Succeed`; an
`awserr.Error` whose `Code()` is `"RequestError"` is `Retry`; everything
else is `Fail`. -/
def RequestErrorClassifier.Classify : Option GoError → Action
  | none => .succeed
  | some (.awsError code _) => if code = "RequestError" then .retry else .fail
  | some (.plainError _) => .fail

/-- `aws.Int64Value`: dereference an optional int64, `0` when nil. -/
def int64Value (v : Option Int) : Int := v.getD 0

/-- `aws.StringValue`: dereference an optional string, `""` when nil. -/
def stringValue (v : Option String) : String := v.getD ""

/-- One entry of `PutRecordBatchOutput.RequestResponses`: the per-record
`ErrorCode` pointer (nil or a string; an empty/absent code means the
record was accepted). -/
structure ResponseEntry where
  errorCode : Option String
deriving DecidableEq, Repr

/-- `firehose.PutRecordBatchOutput`: aggregate `FailedPutCount` plus the
per-record responses, in the order of the submitted records. -/
structure PutRecordBatchOutput where
  failedPutCount : Option Int
  requestResponses : List ResponseEntry
deriving DecidableEq, Repr

/-- `Retrier.Run` from eapache/go-resiliency (the dependency used at
`retrier.New(retrier.ExponentialBackoff(5, 100*time.Millisecond), RequestErrorClassifier{})`):
calls the work function, classifies the returned error, returns it on
`Succeed` or `Fail`, and on `Retry` sleeps and retries while fewer retries
have happened than the length of the backoff slice (here 5), returning the
last error once the budget is spent.  `attempts i` is the outcome of the
`i`-th call to the work closure: `.ok out` when `fhAPI.PutRecordBatch`
returned `out` with a nil error (the closure then stores `out` in `result`
and returns nil, classified `Succeed`), `.error e` when it returned the
error `e`.  `retriesLeft` is the remaining backoff budget. -/
def retrierRunAux (attempts : Nat → Except GoError PutRecordBatchOutput) :
    Nat → Nat → Except GoError PutRecordBatchOutput
  | i, retriesLeft =>
    match attempts i with
    | .ok out => .ok out
    | .error e =>
      match RequestErrorClassifier.Classify (some e) with
      | .retry =>
        match retriesLeft with
        | 0 => .error e
        | n + 1 => retrierRunAux attempts (i + 1) n
      | _ => .error e

/-- The inner bounded retry loop of `sendBatch`: `Retrier.Run` with a
backoff slice of length `backoffLen` (5 in the source). -/
def retrierRun (backoffLen : Nat) (attempts : Nat → Except GoError PutRecordBatchOutput) :
    Except GoError PutRecordBatchOutput :=
  retrierRunAux attempts 0 backoffLen

/-- The narrowing step of `sendBatch`:
`for i, res := range result.RequestResponses { if aws.StringValue(res.ErrorCode) == "" { continue }; newbatch = append(newbatch, batch[i]) }`.
The Go loop walks the responses by index into `batch`, i.e. a parallel
traversal; it panics if there are more responses than records, which the
remote API contract rules out, so the model stops at the shorter list. -/
def narrowBatch : List ResponseEntry → List FirehoseRecord → List FirehoseRecord
  | [], _ => []
  | _ :: _, [] => []
  | res :: rs, rec :: recs =>
    if stringValue res.errorCode = "" then narrowBatch rs recs
    else rec :: narrowBatch rs recs

/-- The environment of one iteration of the outer `sendBatch` loop:
`now` is the value `time.Now()` reads at the loop condition, and
`attempts i` is what the `i`-th `fhAPI.PutRecordBatch` call of this
call to `Retrier.Run` of this iteration returns. -/
structure RoundEnv where
  now : Nat
  attempts : Nat → Except GoError PutRecordBatchOutput

/-- How one `sendBatch` invocation ends.  In Go, `delivered` and
`timedOut` both return nil and `fatal e` returns
`fmt.Errorf("PutRecords: %v", e)`; the model keeps them apart (and keeps
the records on hand at that point) so properties can talk about them.
`pending` means the supplied environment trace ended while the loop would
run another iteration. -/
inductive SendResult where
  | delivered (batch : List FirehoseRecord)
  | fatal (e : GoError)
  | timedOut (batch : List FirehoseRecord)
  | pending (batch : List FirehoseRecord)
deriving DecidableEq, Repr

/-- `sendBatch(batch, fhAPI, fhStream, timeout)`: while `time.Now()` is
before `timeout`, run the inner bounded retry loop around one
`PutRecordBatch` submission; a non-nil error from `Retrier.Run` aborts the
whole delivery with `PutRecords: ...`; a successful submission with
`FailedPutCount == 0` breaks (batch fully delivered); otherwise the batch
is narrowed to the records whose response entry carries a non-empty error
code and the loop repeats.  `rounds` supplies, per iteration, the clock
reading and network outcomes. -/
def sendRounds (timeout : Nat) : List FirehoseRecord → List RoundEnv → SendResult
  | batch, [] => .pending batch
  | batch, r :: rest =>
    if r.now < timeout then
      match retrierRun 5 r.attempts with
      | .error e => .fatal e
      | .ok out =>
        if int64Value out.failedPutCount = 0 then .delivered batch
        else sendRounds timeout (narrowBatch out.requestResponses batch) rest
    else .timedOut batch

/-- The `encoding/json` collaborator, abstract over the decoded object
type: `unmarshal` is `json.Unmarshal(bs, &m)` into a
`map[string]interface{}`, `deleteField` is `delete(m, f)`, `marshal` is
`json.Marshal(m)`. -/
structure JsonCodec (Obj : Type) where
  unmarshal : Bytes → Except String Obj
  deleteField : Obj → String → Obj
  marshal : Obj → Except String Bytes

/-- What one call to `Logger.Write` produces: the returned byte count `n`
and error, the logger state after the call, and, when a threshold was
crossed, the detached batch handed to `go sendBatch(...)` together with
the absolute deadline `time.Now().Add(timeoutForSendingBatches)` fixed at
that moment. -/
structure WriteResult where
  n : Nat
  err : Option String
  st : Logger
  dispatched : Option (List FirehoseRecord × Nat)
deriving Repr

/-- `Logger.Write(bs)`: unmarshal the input (returning `(0, err)` on
failure), delete the `ignoredFields`, re-marshal (returning `(0, err)` on
failure), append a newline (byte 10), then under the mutex add the payload
length to `batchBytes`, append the record to `batch`, and if
`len(batch) == maxBatchRecords || batchBytes > int(0.9*float64(maxBatchBytes))`
detach the whole batch (leaving an empty batch and a zero byte counter)
and hand it to an asynchronous `sendBatch` with deadline
`now + timeoutForSendingBatches`.  Returns `len(bs)` of the transformed
payload.  `now` is the `time.Now()` reading at the dispatch line. -/
def Write {Obj : Type} (codec : JsonCodec Obj) (al : Logger) (now : Nat)
    (bsIn : Bytes) : WriteResult :=
  match codec.unmarshal bsIn with
  | .error e => ⟨0, some e, al, none⟩
  | .ok m0 =>
    let m := ignoredFields.foldl codec.deleteField m0
    match codec.marshal m with
    | .error e => ⟨0, some e, al, none⟩
    | .ok bs0 =>
      let bs := bs0 ++ [10]
      let batchBytes := al.batchBytes + bs.length
      let batch := al.batch ++ [⟨bs⟩]
      if batch.length = al.maxBatchRecords ∨ cutoff al.maxBatchBytes < batchBytes then
        ⟨bs.length, none, { al with batch := [], batchBytes := 0 },
          some (batch, now + timeoutForSendingBatches)⟩
      else
        ⟨bs.length, none, { al with batch := batch, batchBytes := batchBytes }, none⟩

/-- The encoding stage of `Write` in isolation: unmarshal, delete the
ignored fields, marshal, append the trailing newline.  This is the payload
actually stored in the batch. -/
def transformRecord {Obj : Type} (codec : JsonCodec Obj) (bsIn : Bytes) :
    Except String Bytes :=
  match codec.unmarshal bsIn with
  | .error e => .error e
  | .ok m0 =>
    match codec.marshal (ignoredFields.foldl codec.deleteField m0) with
    | .error e => .error e
    | .ok bs0 => .ok (bs0 ++ [10])

/-- `Logger.Close()`: under the mutex, if the batch is non-empty, detach
it and hand it to an asynchronous `sendBatch` with deadline
`now + timeoutForSendingBatches`; always returns nil. -/
def Close (al : Logger) (now : Nat) : Logger × Option (List FirehoseRecord × Nat) :=
  if al.batch.length > 0 then
    ({ al with batch := [], batchBytes := 0 },
      some (al.batch, now + timeoutForSendingBatches))
  else (al, none)

/-- The accumulator invariant from the data model of the spec:
`pendingBytes == sum(len(r) for r in pending)`. -/
def bytesInvariant (al : Logger) : Prop :=
  al.batchBytes = (al.batch.map (fun r => r.data.length)).sum

/-- A concrete `JsonCodec` instance used to evaluate the theorems on
concrete inputs: objects are association lists, the empty input fails to
decode (as `json.Unmarshal` fails on an empty slice), any other input
decodes to a two-field object containing the kv-added field `"level"`,
`deleteField` drops every binding of the key, and `marshal` emits eight
bytes per remaining field plus braces. -/
def sampleCodec : JsonCodec (List (String × String)) where
  unmarshal bs :=
    if bs = [] then .error "unexpected end of JSON input"
    else .ok [("k", "v"), ("level", "info")]
  deleteField obj f := obj.filter (fun p => p.1 ≠ f)
  marshal obj := .ok (List.replicate (8 * obj.length + 2) 120)

/-- When the encoding stage fails, `Write` returns `(0, err)` before
touching any logger state. -/
theorem Write_err_eq {Obj : Type} (codec : JsonCodec Obj) (al : Logger) (now : Nat)
    (bsIn : Bytes) (e : String) (herr : transformRecord codec bsIn = .error e) :
    Write codec al now bsIn = ⟨0, some e, al, none⟩ := by
  unfold transformRecord at herr
  unfold Write
  cases h1 : codec.unmarshal bsIn with
  | error e0 =>
    rw [h1] at herr
    simp only [Except.error.injEq] at herr
    subst herr
    rfl
  | ok m0 =>
    rw [h1] at herr
    cases h2 : codec.marshal (ignoredFields.foldl codec.deleteField m0) with
    | error e0 =>
      simp only [h2, Except.error.injEq] at herr
      subst herr
      simp only [h2]
    | ok bs0 =>
      simp only [h2] at herr
      simp at herr

/-- When the encoding stage succeeds with payload `bs`, `Write` appends
`⟨bs⟩`, updates the byte counter, evaluates the fullness condition on the
post-append state, and either detaches everything or keeps accumulating. -/
theorem Write_ok_eq {Obj : Type} (codec : JsonCodec Obj) (al : Logger) (now : Nat)
    (bsIn bs : Bytes) (henc : transformRecord codec bsIn = .ok bs) :
    Write codec al now bsIn =
      if al.batch.length + 1 = al.maxBatchRecords ∨
          cutoff al.maxBatchBytes < al.batchBytes + bs.length then
        ⟨bs.length, none, { al with batch := [], batchBytes := 0 },
          some (al.batch ++ [⟨bs⟩], now + timeoutForSendingBatches)⟩
      else
        ⟨bs.length, none,
          { al with batch := al.batch ++ [⟨bs⟩],
                    batchBytes := al.batchBytes + bs.length },
          none⟩ := by
  unfold transformRecord at henc
  unfold Write
  cases h1 : codec.unmarshal bsIn with
  | error e0 =>
    rw [h1] at henc
    simp at henc
  | ok m0 =>
    rw [h1] at henc
    cases h2 : codec.marshal (ignoredFields.foldl codec.deleteField m0) with
    | error e0 =>
      simp only [h2] at henc
      simp at henc
    | ok bs0 =>
      simp only [h2, Except.ok.injEq] at henc
      subst henc
      simp only [h2, List.length_append, List.length_cons, List.length_nil,
        List.length_singleton, Nat.zero_add]

/-- A successful `Write` (nil error) means the encoding stage succeeded. -/
theorem Write_err_none_exists {Obj : Type} (codec : JsonCodec Obj) (al : Logger)
    (now : Nat) (bsIn : Bytes) (h : (Write codec al now bsIn).err = none) :
    ∃ bs, transformRecord codec bsIn = .ok bs := by
  cases henc : transformRecord codec bsIn with
  | error e => rw [Write_err_eq codec al now bsIn e henc] at h; simp at h
  | ok bs => exact ⟨bs, rfl⟩

/-- C4: `Classify` returns `Succeed` iff the error is nil, `Retry` iff it
is an AWS error with code `"RequestError"`, and `Fail` for every other
error. -/
theorem classify_spec (err : Option GoError) :
    (RequestErrorClassifier.Classify err = .succeed ↔ err = none) ∧
    (RequestErrorClassifier.Classify err = .retry ↔
      ∃ msg, err = some (.awsError "RequestError" msg)) ∧
    (RequestErrorClassifier.Classify err = .fail ↔
      (err ≠ none ∧ ∀ msg, err ≠ some (.awsError "RequestError" msg))) := by
  match err with
  | none => simp [RequestErrorClassifier.Classify]
  | some (.awsError code msg) =>
    by_cases hc : code = "RequestError"
    · subst hc
      simp [RequestErrorClassifier.Classify]
    · simp [RequestErrorClassifier.Classify, hc]
  | some (.plainError msg) =>
    simp [RequestErrorClassifier.Classify]

/-- C4 witness: a non-nil AWS error with a code other than
`"RequestError"` is classified `Fail`. -/
theorem classify_spec_witness :
    RequestErrorClassifier.Classify (some (.awsError "Throttling" "slow down")) = .fail :=
  (classify_spec (some (.awsError "Throttling" "slow down"))).2.2.mpr (by simp)

/-- C1: a successful `Write` dispatches a batch iff, after appending the
new record, the pending record count equals `maxBatchRecords` or the
pending byte counter strictly exceeds `0.9 * maxBatchBytes` (the
`cutoff`); otherwise no dispatch occurs. -/
theorem write_dispatch_iff {Obj : Type} (codec : JsonCodec Obj) (al : Logger)
    (now : Nat) (bsIn : Bytes) (h : (Write codec al now bsIn).err = none) :
    ((Write codec al now bsIn).dispatched.isSome ↔
      (al.batch.length + 1 = al.maxBatchRecords ∨
        cutoff al.maxBatchBytes < al.batchBytes + (Write codec al now bsIn).n)) := by
  obtain ⟨bs, henc⟩ := Write_err_none_exists codec al now bsIn h
  rw [Write_ok_eq codec al now bsIn bs henc]
  by_cases hc : al.batch.length + 1 = al.maxBatchRecords ∨
      cutoff al.maxBatchBytes < al.batchBytes + bs.length
  · simp [hc]
  · simp [hc]

/-- C1 witness: with `maxBatchRecords = 1`, the first successful write
crosses the record-count threshold and dispatches. -/
theorem write_dispatch_iff_witness :
    ((Write sampleCodec ⟨[], 0, 1, 4000000⟩ 5 [104]).dispatched.isSome ↔
      ((⟨[], 0, 1, 4000000⟩ : Logger).batch.length + 1 =
          (⟨[], 0, 1, 4000000⟩ : Logger).maxBatchRecords ∨
        cutoff (⟨[], 0, 1, 4000000⟩ : Logger).maxBatchBytes <
          (⟨[], 0, 1, 4000000⟩ : Logger).batchBytes +
            (Write sampleCodec ⟨[], 0, 1, 4000000⟩ 5 [104]).n)) :=
  write_dispatch_iff sampleCodec ⟨[], 0, 1, 4000000⟩ 5 [104] (by rfl)

/-- C3: when `Write` crosses a fullness threshold, the batch handed to the
asynchronous sender is exactly the previously pending records plus the
record just appended, and immediately afterwards the pending sequence is
empty and the byte counter is zero. -/
theorem write_dispatch_detaches_all {Obj : Type} (codec : JsonCodec Obj)
    (al : Logger) (now : Nat) (bsIn bs : Bytes) (d : List FirehoseRecord × Nat)
    (henc : transformRecord codec bsIn = .ok bs)
    (hd : (Write codec al now bsIn).dispatched = some d) :
    d.1 = al.batch ++ [⟨bs⟩] ∧
    (Write codec al now bsIn).st.batch = [] ∧
    (Write codec al now bsIn).st.batchBytes = 0 := by
  rw [Write_ok_eq codec al now bsIn bs henc] at hd ⊢
  by_cases hc : al.batch.length + 1 = al.maxBatchRecords ∨
      cutoff al.maxBatchBytes < al.batchBytes + bs.length
  · simp only [if_pos hc, Option.some.injEq] at hd
    subst hd
    simp [hc]
  · simp only [if_neg hc] at hd
    exact absurd hd (by simp)

/-- C3 witness: the dispatch triggered by the first write under
`maxBatchRecords = 1` carries exactly the one appended record and leaves
an empty accumulator. -/
theorem write_dispatch_detaches_all_witness :
    ((([⟨List.replicate 10 120 ++ [10]⟩] : List FirehoseRecord),
        5 + timeoutForSendingBatches) : List FirehoseRecord × Nat).1 =
      ([] : List FirehoseRecord) ++ [⟨List.replicate 10 120 ++ [10]⟩] ∧
    (Write sampleCodec ⟨[], 0, 1, 4000000⟩ 5 [104]).st.batch = [] ∧
    (Write sampleCodec ⟨[], 0, 1, 4000000⟩ 5 [104]).st.batchBytes = 0 :=
  write_dispatch_detaches_all sampleCodec ⟨[], 0, 1, 4000000⟩ 5 [104]
    (List.replicate 10 120 ++ [10])
    ([⟨List.replicate 10 120 ++ [10]⟩], 5 + timeoutForSendingBatches)
    (by rfl) (by rfl)

/-- C9: for a successfully written input, `Write` returns the byte length
of the transformed record actually stored in the batch (the input
re-marshaled after deleting the ignored fields, plus one trailing newline
byte) — the very record appended to the accumulator or dispatched. -/
theorem write_returns_stored_length {Obj : Type} (codec : JsonCodec Obj)
    (al : Logger) (now : Nat) (bsIn bs : Bytes)
    (henc : transformRecord codec bsIn = .ok bs) :
    (Write codec al now bsIn).n = bs.length ∧
    (Write codec al now bsIn).err = none ∧
    ((Write codec al now bsIn).dispatched = none →
      (Write codec al now bsIn).st.batch = al.batch ++ [⟨bs⟩]) ∧
    (∀ d, (Write codec al now bsIn).dispatched = some d →
      d.1 = al.batch ++ [⟨bs⟩]) := by
  rw [Write_ok_eq codec al now bsIn bs henc]
  by_cases hc : al.batch.length + 1 = al.maxBatchRecords ∨
      cutoff al.maxBatchBytes < al.batchBytes + bs.length
  · simp [hc]
  · simp [hc]

/-- C9 witness: a one-byte input is stored as an eleven-byte record (the
re-marshaled object plus newline) and `Write` returns 11, not the input
length 1. -/
theorem write_returns_stored_length_witness :
    (Write sampleCodec ⟨[], 0, 500, 4000000⟩ 5 [104]).n ≠ ([104] : Bytes).length ∧
    ((Write sampleCodec ⟨[], 0, 500, 4000000⟩ 5 [104]).n =
        (List.replicate 10 120 ++ [10]).length ∧
      (Write sampleCodec ⟨[], 0, 500, 4000000⟩ 5 [104]).err = none ∧
      ((Write sampleCodec ⟨[], 0, 500, 4000000⟩ 5 [104]).dispatched = none →
        (Write sampleCodec ⟨[], 0, 500, 4000000⟩ 5 [104]).st.batch =
          ([] : List FirehoseRecord) ++ [⟨List.replicate 10 120 ++ [10]⟩]) ∧
      (∀ d, (Write sampleCodec ⟨[], 0, 500, 4000000⟩ 5 [104]).dispatched = some d →
        d.1 = ([] : List FirehoseRecord) ++ [⟨List.replicate 10 120 ++ [10]⟩])) :=
  ⟨by decide,
    write_returns_stored_length sampleCodec ⟨[], 0, 500, 4000000⟩ 5 [104]
      (List.replicate 10 120 ++ [10]) (by rfl)⟩

/-- C7: the accumulator invariant `pendingBytes == sum(len(r) for r in
pending)` is preserved by every `Write` (successful or not) and by every
`Close`. -/
theorem write_close_preserve_bytesInvariant {Obj : Type} (codec : JsonCodec Obj)
    (al : Logger) (now : Nat) (bsIn : Bytes) (hinv : bytesInvariant al) :
    bytesInvariant (Write codec al now bsIn).st ∧
    bytesInvariant (Close al now).1 := by
  constructor
  · cases henc : transformRecord codec bsIn with
    | error e =>
      rw [Write_err_eq codec al now bsIn e henc]
      exact hinv
    | ok bs =>
      rw [Write_ok_eq codec al now bsIn bs henc]
      by_cases hc : al.batch.length + 1 = al.maxBatchRecords ∨
          cutoff al.maxBatchBytes < al.batchBytes + bs.length
      · simp only [if_pos hc]
        simp [bytesInvariant]
      · simp only [if_neg hc]
        unfold bytesInvariant at hinv ⊢
        simp [hinv]
  · unfold Close
    by_cases hb : al.batch.length > 0
    · simp only [if_pos hb]
      simp [bytesInvariant]
    · simp only [if_neg hb]
      exact hinv

/-- C7 witness: the invariant holds after a write and a close on a state
holding one two-byte record with a matching byte counter. -/
theorem write_close_preserve_bytesInvariant_witness :
    bytesInvariant (Write sampleCodec ⟨[⟨[97, 10]⟩], 2, 500, 4000000⟩ 5 [104]).st ∧
    bytesInvariant (Close ⟨[⟨[97, 10]⟩], 2, 500, 4000000⟩ 5).1 :=
  write_close_preserve_bytesInvariant sampleCodec ⟨[⟨[97, 10]⟩], 2, 500, 4000000⟩ 5 [104]
    (by rfl)

/-- C8: when the input cannot be decoded, `Write` returns the error with a
zero byte count, the logger state is exactly what it was before the call,
and nothing is dispatched. -/
theorem write_decode_error_no_effect {Obj : Type} (codec : JsonCodec Obj)
    (al : Logger) (now : Nat) (bsIn : Bytes) (e : String)
    (herr : codec.unmarshal bsIn = .error e) :
    Write codec al now bsIn = ⟨0, some e, al, none⟩ := by
  apply Write_err_eq
  unfold transformRecord
  rw [herr]

/-- C8 witness: the empty input fails to decode under `sampleCodec`, and
`Write` on a sample state returns the error, zero bytes, the unchanged
state and no dispatch. -/
theorem write_decode_error_no_effect_witness :
    Write sampleCodec ⟨[⟨[104, 10]⟩], 2, 500, 4000000⟩ 7 [] =
      ⟨0, some "unexpected end of JSON input", ⟨[⟨[104, 10]⟩], 2, 500, 4000000⟩, none⟩ :=
  write_decode_error_no_effect sampleCodec ⟨[⟨[104, 10]⟩], 2, 500, 4000000⟩ 7 []
    "unexpected end of JSON input" (by rfl)

/-- `narrowBatch` keeps exactly the records whose parallel response entry
carries a non-empty error code, in their original relative order. -/
theorem narrowBatch_eq_filterMap (rs : List ResponseEntry)
    (batch : List FirehoseRecord) :
    narrowBatch rs batch =
      (rs.zip batch).filterMap
        (fun p => if stringValue p.1.errorCode = "" then none else some p.2) := by
  induction rs generalizing batch with
  | nil => simp [narrowBatch]
  | cons res rs ih =>
    cases batch with
    | nil => simp [narrowBatch]
    | cons rec recs =>
      by_cases hcode : stringValue res.errorCode = ""
      · simp [narrowBatch, hcode, ih]
      · simp [narrowBatch, hcode, ih]

/-- When every response entry has an empty error code, the narrowed batch
is empty. -/
theorem narrowBatch_nil_of_all_empty (rs : List ResponseEntry)
    (batch : List FirehoseRecord)
    (h : ∀ e ∈ rs, stringValue e.errorCode = "") :
    narrowBatch rs batch = [] := by
  induction rs generalizing batch with
  | nil => cases batch <;> rfl
  | cons res rs ih =>
    cases batch with
    | nil => rfl
    | cons rec recs =>
      unfold narrowBatch
      rw [if_pos (h res (List.mem_cons_self _ _))]
      exact ih recs (fun e he => h e (List.mem_cons_of_mem _ he))

/-- A run of outer-loop rounds that each submit successfully with a
positive failed count and an empty response list keeps the batch empty
and ends `.timedOut []` once the clock reading of a round reaches the
deadline. -/
theorem sendRounds_empty_until_deadline (timeout : Nat)
    (rounds : List RoundEnv) (rlast : RoundEnv) :
    (∀ q ∈ rounds, q.now < timeout ∧ ∃ o, retrierRun 5 q.attempts = .ok o ∧
      int64Value o.failedPutCount ≠ 0 ∧ o.requestResponses = []) →
    timeout ≤ rlast.now →
    sendRounds timeout [] (rounds ++ [rlast]) = .timedOut [] := by
  induction rounds with
  | nil =>
    intro _ hlast
    simp only [List.nil_append, sendRounds]
    rw [if_neg (Nat.not_lt.mpr hlast)]
  | cons q qs ih =>
    intro hall hlast
    obtain ⟨hq, o, ho, hof, hor⟩ := hall q (List.mem_cons_self _ _)
    simp only [List.cons_append, sendRounds]
    rw [if_pos hq]
    simp only [ho]
    rw [if_neg hof, hor]
    simp only [narrowBatch]
    exact ih (fun p hp => hall p (List.mem_cons_of_mem _ hp)) hlast

/-- C2: when the submission of one round succeeds but rejects a non-empty
strict subset of the batch, the batch submitted in the next round is
exactly the subsequence of records whose per-record response entry has a
non-empty error code, in their original relative order, and no other
records. -/
theorem sendBatch_resubmits_rejected (timeout : Nat)
    (batch : List FirehoseRecord) (r : RoundEnv) (rest : List RoundEnv)
    (out : PutRecordBatchOutput)
    (htime : r.now < timeout)
    (hrun : retrierRun 5 r.attempts = .ok out)
    (hlen : out.requestResponses.length = batch.length)
    (hfail : int64Value out.failedPutCount ≠ 0)
    (hrej : ∃ e ∈ out.requestResponses, stringValue e.errorCode ≠ "")
    (hacc : ∃ e ∈ out.requestResponses, stringValue e.errorCode = "") :
    sendRounds timeout batch (r :: rest) =
      sendRounds timeout (narrowBatch out.requestResponses batch) rest ∧
    narrowBatch out.requestResponses batch =
      (out.requestResponses.zip batch).filterMap
        (fun p => if stringValue p.1.errorCode = "" then none else some p.2) := by
  constructor
  · simp only [sendRounds]
    rw [if_pos htime]
    simp only [hrun]
    rw [if_neg hfail]
  · exact narrowBatch_eq_filterMap _ _

/-- C2 witness: a two-record batch whose response rejects only the first
record resubmits exactly that record. -/
theorem sendBatch_resubmits_rejected_witness :
    sendRounds 100 [⟨[97]⟩, ⟨[98]⟩]
        (⟨0, fun _ => .ok ⟨some 1, [⟨some "ServiceUnavailableException"⟩, ⟨none⟩]⟩⟩ :: []) =
      sendRounds 100
        (narrowBatch [⟨some "ServiceUnavailableException"⟩, ⟨none⟩] [⟨[97]⟩, ⟨[98]⟩]) [] ∧
    narrowBatch [⟨some "ServiceUnavailableException"⟩, ⟨none⟩] [⟨[97]⟩, ⟨[98]⟩] =
      (([⟨some "ServiceUnavailableException"⟩, ⟨none⟩] :
          List ResponseEntry).zip [(⟨[97]⟩ : FirehoseRecord), ⟨[98]⟩]).filterMap
        (fun p => if stringValue p.1.errorCode = "" then none else some p.2) :=
  sendBatch_resubmits_rejected 100 [⟨[97]⟩, ⟨[98]⟩]
    ⟨0, fun _ => .ok ⟨some 1, [⟨some "ServiceUnavailableException"⟩, ⟨none⟩]⟩⟩ []
    ⟨some 1, [⟨some "ServiceUnavailableException"⟩, ⟨none⟩]⟩
    (by decide) (by rfl) (by decide) (by decide) (by decide) (by decide)

/-- C5: if the inner bounded retry loop of one round finishes with a non-nil
error, the delivery for that batch aborts immediately — the result is the
fatal delivery error, and it does not depend on any further environment,
so no further submissions occur for that batch and nothing is handed back
to the accumulator. -/
theorem sendBatch_aborts_on_retrier_error (timeout : Nat)
    (batch : List FirehoseRecord) (r : RoundEnv) (rest rest2 : List RoundEnv)
    (e : GoError)
    (htime : r.now < timeout)
    (hrun : retrierRun 5 r.attempts = .error e) :
    sendRounds timeout batch (r :: rest) = .fatal e ∧
    sendRounds timeout batch (r :: rest) = sendRounds timeout batch (r :: rest2) := by
  have h1 : ∀ rs : List RoundEnv, sendRounds timeout batch (r :: rs) = .fatal e := by
    intro rs
    simp only [sendRounds]
    rw [if_pos htime]
    simp only [hrun]
  exact ⟨h1 rest, (h1 rest).trans (h1 rest2).symm⟩

/-- C5 witness: a round whose every submission attempt fails with a
non-transient error aborts the delivery with that error on the first
attempt, regardless of the rest of the trace. -/
theorem sendBatch_aborts_on_retrier_error_witness :
    sendRounds 100 [⟨[97]⟩]
        (⟨0, fun _ => .error (.plainError "AccessDenied")⟩ :: []) =
      .fatal (.plainError "AccessDenied") ∧
    sendRounds 100 [⟨[97]⟩]
        (⟨0, fun _ => .error (.plainError "AccessDenied")⟩ :: []) =
      sendRounds 100 [⟨[97]⟩]
        (⟨0, fun _ => .error (.plainError "AccessDenied")⟩ ::
          [⟨1, fun _ => .ok ⟨some 0, []⟩⟩]) :=
  sendBatch_aborts_on_retrier_error 100 [⟨[97]⟩]
    ⟨0, fun _ => .error (.plainError "AccessDenied")⟩ [] [⟨1, fun _ => .ok ⟨some 0, []⟩⟩]
    (.plainError "AccessDenied") (by decide) (by rfl)

/-- C6: the retry loop is bounded by a single absolute deadline fixed when
the batch is detached — `Write` stamps `now + timeoutForSendingBatches`
(one minute, in nanoseconds) on the dispatch — and no submission round
starts at or after that deadline: a round whose clock reading has reached
the deadline stops the delivery immediately, whatever the network would
have answered. -/
theorem sendBatch_deadline_bounds {Obj : Type} (codec : JsonCodec Obj)
    (al : Logger) (now : Nat) (bsIn : Bytes) (d : List FirehoseRecord × Nat)
    (timeout : Nat) (batch : List FirehoseRecord) (r : RoundEnv)
    (rest : List RoundEnv)
    (hd : (Write codec al now bsIn).dispatched = some d)
    (htime : timeout ≤ r.now) :
    d.2 = now + timeoutForSendingBatches ∧
    timeoutForSendingBatches = 60 * 1000000000 ∧
    sendRounds timeout batch (r :: rest) = .timedOut batch := by
  refine ⟨?_, rfl, ?_⟩
  · cases henc : transformRecord codec bsIn with
    | error e =>
      rw [Write_err_eq codec al now bsIn e henc] at hd
      simp at hd
    | ok bs =>
      rw [Write_ok_eq codec al now bsIn bs henc] at hd
      by_cases hc : al.batch.length + 1 = al.maxBatchRecords ∨
          cutoff al.maxBatchBytes < al.batchBytes + bs.length
      · simp only [if_pos hc, Option.some.injEq] at hd
        subst hd
        rfl
      · simp only [if_neg hc] at hd
        exact absurd hd (by simp)
  · simp only [sendRounds]
    rw [if_neg (Nat.not_lt.mpr htime)]

/-- C6 witness: the dispatch produced at clock reading 5 carries the
deadline `5 + timeoutForSendingBatches`, and a round at the deadline
itself performs no submission. -/
theorem sendBatch_deadline_bounds_witness :
    ((([⟨List.replicate 10 120 ++ [10]⟩] : List FirehoseRecord),
        5 + timeoutForSendingBatches) : List FirehoseRecord × Nat).2 =
      5 + timeoutForSendingBatches ∧
    timeoutForSendingBatches = 60 * 1000000000 ∧
    sendRounds 7 [⟨[97]⟩] (⟨7, fun _ => .ok ⟨some 0, []⟩⟩ :: []) =
      .timedOut [⟨[97]⟩] :=
  sendBatch_deadline_bounds sampleCodec ⟨[], 0, 1, 4000000⟩ 5 [104]
    ([⟨List.replicate 10 120 ++ [10]⟩], 5 + timeoutForSendingBatches)
    7 [⟨[97]⟩] ⟨7, fun _ => .ok ⟨some 0, []⟩⟩ []
    (by rfl) (by decide)

/-- C10: the batch-level loop stops early only on a zero aggregate
`FailedPutCount`, not on an empty narrowed batch: a round with a positive
failed count whose per-record error codes are all empty narrows the batch
to nothing, the next round submits that empty batch, and such rounds
repeat until the deadline elapses. -/
theorem sendBatch_continues_on_empty_narrow (timeout : Nat)
    (batch : List FirehoseRecord) (r : RoundEnv) (rounds : List RoundEnv)
    (rlast : RoundEnv) (out : PutRecordBatchOutput)
    (htime : r.now < timeout)
    (hrun : retrierRun 5 r.attempts = .ok out)
    (hfail : int64Value out.failedPutCount ≠ 0)
    (hempty : ∀ e ∈ out.requestResponses, stringValue e.errorCode = "")
    (hall : ∀ q ∈ rounds, q.now < timeout ∧ ∃ o, retrierRun 5 q.attempts = .ok o ∧
      int64Value o.failedPutCount ≠ 0 ∧ o.requestResponses = [])
    (hlast : timeout ≤ rlast.now) :
    sendRounds timeout batch (r :: (rounds ++ [rlast])) =
      sendRounds timeout [] (rounds ++ [rlast]) ∧
    sendRounds timeout batch (r :: (rounds ++ [rlast])) = .timedOut [] := by
  have hstep : sendRounds timeout batch (r :: (rounds ++ [rlast])) =
      sendRounds timeout [] (rounds ++ [rlast]) := by
    simp only [sendRounds]
    rw [if_pos htime]
    simp only [hrun]
    rw [if_neg hfail, narrowBatch_nil_of_all_empty out.requestResponses batch hempty]
  exact ⟨hstep, hstep.trans (sendRounds_empty_until_deadline timeout rounds rlast hall hlast)⟩

/-- C10 witness: a response claiming one failure but reporting no
per-record error narrows a one-record batch to nothing; the empty batch
is resubmitted on the next round and the loop only stops when the
deadline passes. -/
theorem sendBatch_continues_on_empty_narrow_witness :
    sendRounds 50 [⟨[97]⟩]
        (⟨0, fun _ => .ok ⟨some 1, [⟨none⟩]⟩⟩ ::
          ([⟨1, fun _ => .ok ⟨some 2, []⟩⟩] ++ [⟨50, fun _ => .ok ⟨some 0, []⟩⟩])) =
      sendRounds 50 []
        ([⟨1, fun _ => .ok ⟨some 2, []⟩⟩] ++ [⟨50, fun _ => .ok ⟨some 0, []⟩⟩]) ∧
    sendRounds 50 [⟨[97]⟩]
        (⟨0, fun _ => .ok ⟨some 1, [⟨none⟩]⟩⟩ ::
          ([⟨1, fun _ => .ok ⟨some 2, []⟩⟩] ++ [⟨50, fun _ => .ok ⟨some 0, []⟩⟩])) =
      .timedOut [] :=
  sendBatch_continues_on_empty_narrow 50 [⟨[97]⟩]
    ⟨0, fun _ => .ok ⟨some 1, [⟨none⟩]⟩⟩
    [⟨1, fun _ => .ok ⟨some 2, []⟩⟩] ⟨50, fun _ => .ok ⟨some 0, []⟩⟩
    ⟨some 1, [⟨none⟩]⟩
    (by decide) (by rfl) (by decide) (by decide)
    (by
      intro q hq
      rw [List.mem_singleton] at hq
      subst hq
      exact ⟨by decide, ⟨some 2, []⟩, rfl, by decide, rfl⟩)
    (by decide)

end KayveeAnalytics
